import Mathlib

/-!
Shallow embedding of the blob storage gateway implemented in `app.py`:
the key sanitizer `safe_relpath`, the three backend adapters (local
filesystem, embedded database table, remote object store), the metadata
index `BlobMeta` and the gateway store/retrieve operations.

Python strings are modelled as `List Char`, byte strings as `List Nat`
(each entry a byte value).  External stores (the filesystem, the
`blob_data` table, the remote object store reached over HTTP) are
modelled as association lists, with overwrite/erase semantics matching
the operations the code performs on them.
-/

/-- Byte strings: a list of byte values. -/
abbrev Bytes := List Nat

/-- The characters of a string literal. -/
def chars (s : String) : List Char := s.data

/-- Python `str.isspace` code points, the set stripped by `str.strip()`. -/
def isPySpace (c : Char) : Bool :=
  decide ((9 ≤ c.toNat ∧ c.toNat ≤ 13) ∨ (28 ≤ c.toNat ∧ c.toNat ≤ 32) ∨
    c.toNat = 133 ∨ c.toNat = 160 ∨ c.toNat = 5760 ∨
    (8192 ≤ c.toNat ∧ c.toNat ≤ 8202) ∨ c.toNat = 8232 ∨ c.toNat = 8233 ∨
    c.toNat = 8239 ∨ c.toNat = 8287 ∨ c.toNat = 12288)

/-- The character class of `SAFE_SEG = re.compile(r"^[A-Za-z0-9._-]+$")`. -/
def allowChar (c : Char) : Bool :=
  decide ((65 ≤ c.toNat ∧ c.toNat ≤ 90) ∨ (97 ≤ c.toNat ∧ c.toNat ≤ 122) ∨
    (48 ≤ c.toNat ∧ c.toNat ≤ 57) ∨ c.toNat = 46 ∨ c.toNat = 95 ∨ c.toNat = 45)

/-- Python `s.strip(chars)`: drop the characters satisfying `p` from both ends. -/
def stripChars (p : Char → Bool) (l : List Char) : List Char :=
  ((l.dropWhile p).reverse.dropWhile p).reverse

/-- `seg.strip()` — strip surrounding whitespace. -/
def pyStrip (l : List Char) : List Char := stripChars isPySpace l

/-- `key.strip("/")` — strip surrounding slashes. -/
def stripSlashes (l : List Char) : List Char := stripChars (fun c => decide (c = '/')) l

/-- Python `s.split("/")`: always returns at least one (possibly empty) segment. -/
def splitSlash : List Char → List (List Char)
  | [] => [[]]
  | c :: rest =>
    if c = '/' then [] :: splitSlash rest
    else
      match splitSlash rest with
      | [] => [[c]]
      | s :: ss => (c :: s) :: ss

/-- `"/".join` of path segments, i.e. `str(PurePosixPath(*parts))`. -/
def joinSlash : List (List Char) → List Char
  | [] => []
  | [s] => s
  | s :: rest => s ++ '/' :: joinSlash rest

/- ----------------------------------------------------------------
SHA-256 (hashlib.sha256), on byte lists, all words reduced mod 2^32.
---------------------------------------------------------------- -/

/-- Reduce to a 32-bit word. -/
def w32 (n : Nat) : Nat := n % 4294967296

/-- Rotate a 32-bit word right by `k`. -/
def rotr (k x : Nat) : Nat := w32 ((x >>> k) ||| (x <<< (32 - k)))

def bsig0 (x : Nat) : Nat := (rotr 2 x) ^^^ (rotr 13 x) ^^^ (rotr 22 x)
def bsig1 (x : Nat) : Nat := (rotr 6 x) ^^^ (rotr 11 x) ^^^ (rotr 25 x)
def ssig0 (x : Nat) : Nat := (rotr 7 x) ^^^ (rotr 18 x) ^^^ (x >>> 3)
def ssig1 (x : Nat) : Nat := (rotr 17 x) ^^^ (rotr 19 x) ^^^ (x >>> 10)
def shaCh (x y z : Nat) : Nat := (x &&& y) ^^^ ((x ^^^ 4294967295) &&& z)
def shaMaj (x y z : Nat) : Nat := (x &&& y) ^^^ (x &&& z) ^^^ (y &&& z)

/-- The 64 SHA-256 round constants of FIPS 180-4, written in decimal. -/
def K256 : List Nat :=
  [1116352408, 1899447441, 3049323471, 3921009573, 961987163, 1508970993,
   2453635748, 2870763221, 3624381080, 310598401, 607225278, 1426881987,
   1925078388, 2162078206, 2614888103, 3248222580, 3835390401, 4022224774,
   264347078, 604807628, 770255983, 1249150122, 1555081692, 1996064986,
   2554220882, 2821834349, 2952996808, 3210313671, 3336571891, 3584528711,
   113926993, 338241895, 666307205, 773529912, 1294757372, 1396182291,
   1695183700, 1986661051, 2177026350, 2456956037, 2730485921, 2820302411,
   3259730800, 3345764771, 3516065817, 3600352804, 4094571909, 275423344,
   430227734, 506948616, 659060556, 883997877, 958139571, 1322822218,
   1537002063, 1747873779, 1955562222, 2024104815, 2227730452, 2361852424,
   2428436474, 2756734187, 3204031479, 3329325298]

/-- The eight running-hash words of SHA-256. -/
structure H8 where
  a : Nat
  b : Nat
  c : Nat
  d : Nat
  e : Nat
  f : Nat
  g : Nat
  h : Nat

/-- SHA-256 initial hash value. -/
def initH : H8 :=
  ⟨1779033703, 3144134277, 1013904242, 2773480762,
   1359893119, 2600822924, 528734635, 1541459225⟩

/-- Big-endian 8-byte encoding. -/
def be64 (n : Nat) : Bytes :=
  [n / 2 ^ 56 % 256, n / 2 ^ 48 % 256, n / 2 ^ 40 % 256, n / 2 ^ 32 % 256,
   n / 2 ^ 24 % 256, n / 2 ^ 16 % 256, n / 2 ^ 8 % 256, n % 256]

/-- Big-endian 4-byte encoding. -/
def be32 (n : Nat) : Bytes := [n / 2 ^ 24 % 256, n / 2 ^ 16 % 256, n / 2 ^ 8 % 256, n % 256]

/-- SHA-256 padding: append 0x80, zeros and the 64-bit bit length. -/
def padMsg (msg : Bytes) : Bytes :=
  msg ++ 128 :: List.replicate ((119 - msg.length % 64) % 64) 0 ++ be64 (8 * msg.length)

/-- Group bytes into big-endian 32-bit words. -/
def toWords : Bytes → List Nat
  | a :: b :: c :: d :: rest => (((a * 256 + b) * 256 + c) * 256 + d) :: toWords rest
  | _ => []

/-- Extend the 16 chunk words by `n` schedule words. -/
def extendWords (ws : List Nat) : Nat → List Nat
  | 0 => ws
  | n + 1 =>
    let prev := extendWords ws n
    prev ++ [w32 (ssig1 (prev.getD (prev.length - 2) 0) + prev.getD (prev.length - 7) 0 +
      ssig0 (prev.getD (prev.length - 15) 0) + prev.getD (prev.length - 16) 0)]

/-- One SHA-256 compression round. -/
def compressStep (st : H8) (kw : Nat × Nat) : H8 :=
  let t1 := w32 (st.h + bsig1 st.e + shaCh st.e st.f st.g + kw.1 + kw.2)
  let t2 := w32 (bsig0 st.a + shaMaj st.a st.b st.c)
  ⟨w32 (t1 + t2), st.a, st.b, st.c, w32 (st.d + t1), st.e, st.f, st.g⟩

/-- Process one 64-byte chunk. -/
def processChunk (st : H8) (chunk : Bytes) : H8 :=
  let ws := extendWords (toWords chunk) 48
  let r := (K256.zip ws).foldl compressStep st
  ⟨w32 (st.a + r.a), w32 (st.b + r.b), w32 (st.c + r.c), w32 (st.d + r.d),
   w32 (st.e + r.e), w32 (st.f + r.f), w32 (st.g + r.g), w32 (st.h + r.h)⟩

/-- Split a byte list into 64-byte chunks. -/
def chunks64 (l : Bytes) : List Bytes :=
  if h : l = [] then []
  else l.take 64 :: chunks64 (l.drop 64)
termination_by l.length
decreasing_by
  simp only [List.length_drop]
  exact Nat.sub_lt (List.length_pos.mpr h) (by norm_num)

/-- Serialize the running hash, big-endian. -/
def outBytes (st : H8) : Bytes :=
  be32 st.a ++ be32 st.b ++ be32 st.c ++ be32 st.d ++
  be32 st.e ++ be32 st.f ++ be32 st.g ++ be32 st.h

/-- SHA-256 digest of a byte string. -/
def sha256 (msg : Bytes) : Bytes :=
  outBytes ((chunks64 (padMsg msg)).foldl processChunk initH)

/-- The sixteen lowercase hex digits. -/
def hexDigits : List Char := chars "0123456789abcdef"

/-- Lowercase hex digit of `n % 16`. -/
def hexChar (n : Nat) : Char := hexDigits.getD (n % 16) '0'

/-- Two hex digits of a byte. -/
def byteHex (b : Nat) : List Char := [hexChar (b / 16), hexChar b]

/-- `hashlib.sha256(msg).hexdigest()`. -/
def sha256hex (msg : Bytes) : List Char := ((sha256 msg).map byteHex).flatten

/-- UTF-8 encoding of one character (Python `str.encode()`). -/
def utf8Char (c : Char) : Bytes :=
  let n := c.toNat
  if n < 128 then [n]
  else if n < 2048 then [192 + n / 64, 128 + n % 64]
  else if n < 65536 then [224 + n / 4096, 128 + n / 64 % 64, 128 + n % 64]
  else [240 + n / 262144, 128 + n / 4096 % 64, 128 + n / 64 % 64, 128 + n % 64]

/-- UTF-8 encoding of a string. -/
def utf8Encode (s : List Char) : Bytes := (s.map utf8Char).flatten

/-- `hashlib.sha256(seg.encode()).hexdigest()[:16]`. -/
def hashSegment (seg : List Char) : List Char := (sha256hex (utf8Encode seg)).take 16

/-- `SAFE_SEG.match(seg)`: the anchored pattern `^[A-Za-z0-9._-]+$` matches
`seg` (Python `$` also matches just before one trailing newline). -/
def matchSafe (s : List Char) : Bool :=
  (!s.isEmpty && s.all allowChar) ||
  (decide (s.getLast? = some '\n') && !s.dropLast.isEmpty && s.dropLast.all allowChar)

/-- One iteration of the loop body of `safe_relpath`: strip the segment,
drop it when empty, `"."` or `".."`, otherwise keep it verbatim when
`SAFE_SEG` matches and hash it otherwise. -/
def sanitizeSeg (seg : List Char) : Option (List Char) :=
  let s := pyStrip seg
  if s = [] ∨ s = chars "." ∨ s = chars ".." then none
  else some (if matchSafe s then s else hashSegment s)

/-- `safe_relpath(key)` from `app.py`, as the list of path segments. -/
def safe_relpath (key : List Char) : List (List Char) :=
  let parts := (splitSlash (stripSlashes key)).filterMap sanitizeSeg
  if parts = [] then [chars "blob"] else parts

/-- `str(rel)` for the path returned by `safe_relpath` (slash-joined). -/
def pathString (parts : List (List Char)) : List Char := joinSlash parts

/- ----------------------------------------------------------------
Base64 (base64.b64decode with validate=True, base64.b64encode).
---------------------------------------------------------------- -/

/-- Index of a character in the standard base64 alphabet. -/
def b64Index (c : Char) : Option Nat :=
  if 65 ≤ c.toNat ∧ c.toNat ≤ 90 then some (c.toNat - 65)
  else if 97 ≤ c.toNat ∧ c.toNat ≤ 122 then some (c.toNat - 97 + 26)
  else if 48 ≤ c.toNat ∧ c.toNat ≤ 57 then some (c.toNat - 48 + 52)
  else if c = '+' then some 62
  else if c = '/' then some 63
  else none

/-- Bytes of a sextet sequence: full 6-bit quads into 3 bytes each, a
final pair or triple (from a padded final quad) into 1 or 2 bytes, and a
single leftover sextet is malformed. -/
def sextetsToBytes : List Nat → Option Bytes
  | [] => some []
  | [x, y] => some [x * 4 + y / 16]
  | [x, y, z] => some [x * 4 + y / 16, y % 16 * 16 + z / 4]
  | x :: y :: z :: w :: rest =>
    match sextetsToBytes rest with
    | some bs => some ((x * 4 + y / 16) :: (y % 16 * 16 + z / 4) :: (z % 4 * 64 + w) :: bs)
    | none => none
  | _ => none

/-- `base64.b64decode(s, validate=True)`: `none` models the raised error.
The string must be alphabet characters followed only by `'='` padding; a
final partial quad of 3 or 2 data characters needs exactly 1 or 2 pads,
while after complete quads any number of trailing pads is tolerated
(matching CPython's binascii, checked exhaustively against it). -/
def b64decode (s : List Char) : Option Bytes :=
  let ds := s.takeWhile fun c => (b64Index c).isSome
  let ps := s.drop ds.length
  if (ps.all fun c => decide (c = '=')) = true ∧
      ((ds.length % 4 = 0 ∧ (ps.length = 0 ∨ 0 < ds.length)) ∨
        (ds.length % 4 = 3 ∧ ps.length = 1) ∨
        (ds.length % 4 = 2 ∧ ps.length = 2)) then
    sextetsToBytes (ds.filterMap b64Index)
  else none

/-- The standard base64 alphabet. -/
def b64Alphabet : List Char :=
  chars "ABCDEFGHIJKLMNOPQRSTUVWXYZabcdefghijklmnopqrstuvwxyz0123456789+/"

/-- Character for a six-bit value. -/
def b64Char (n : Nat) : Char := b64Alphabet.getD (n % 64) 'A'

/-- `base64.b64encode`. -/
def b64encode : Bytes → List Char
  | [] => []
  | [x] => [b64Char (x / 4), b64Char (x % 4 * 16), '=', '=']
  | [x, y] => [b64Char (x / 4), b64Char (x % 4 * 16 + y / 16), b64Char (y % 16 * 4), '=']
  | x :: y :: z :: rest =>
    b64Char (x / 4) :: b64Char (x % 4 * 16 + y / 16) ::
    b64Char (y % 16 * 4 + z / 64) :: b64Char (z % 64) :: b64encode rest

/- ----------------------------------------------------------------
Association-list stores, modelling the external stateful collaborators:
the local filesystem tree, the blob_data table and the remote objects.
---------------------------------------------------------------- -/

/-- Value stored under a key, `none` when absent. -/
def assocGet {α β : Type} [DecidableEq α] : List (α × β) → α → Option β
  | [], _ => none
  | (k, v) :: rest, key => if k = key then some v else assocGet rest key

/-- Remove every entry stored under a key. -/
def assocErase {α β : Type} [DecidableEq α] : List (α × β) → α → List (α × β)
  | [], _ => []
  | (k, v) :: rest, key =>
    if k = key then assocErase rest key else (k, v) :: assocErase rest key

/-- Overwrite the entry under a key. -/
def assocSet {α β : Type} [DecidableEq α] (l : List (α × β)) (key : α) (v : β) :
    List (α × β) :=
  (key, v) :: assocErase l key

/-- Local filesystem contents under `LOCAL_STORAGE_DIR`: bytes per relative path. -/
abbrev FS := List (List (List Char) × Bytes)

/-- `LocalFS.put`: write the bytes at the sanitized relative path (the temp
file plus `os.replace` amounts to an atomic overwrite) and return the
slash-joined relative path as locator. -/
def fsPut (fs : FS) (key : List Char) (data : Bytes) : FS × List Char :=
  let rel := safe_relpath key
  (assocSet fs rel data, pathString rel)

/-- `LocalFS.get`: re-sanitize the locator and read the file; `none` models
the raised `FileNotFoundError`. -/
def fsGet (fs : FS) (locator : List Char) : Option Bytes :=
  assocGet fs (safe_relpath locator)

/-- The `blob_data` table used by the database backend: bytes per row id. -/
abbrev DBS := List (List Char × Bytes)

/-- `DBTable.put`: delete an existing row with that id, then add the new row
(one transaction); the caller id itself is the locator. -/
def dbTablePut (tbl : DBS) (key : List Char) (data : Bytes) : DBS × List Char :=
  let row := assocGet tbl key
  let tbl1 := if row.isSome then assocErase tbl key else tbl
  (tbl1 ++ [(key, data)], key)

/-- `DBTable.get`: read the row; `none` models the raised `FileNotFoundError`. -/
def dbTableGet (tbl : DBS) (locator : List Char) : Option Bytes :=
  assocGet tbl locator

/-- The remote object store: bytes per object URL. -/
abbrev Remote := List (List Char × Bytes)

def S3_BUCKET : String := "expiriment"
def S3_REGION : String := "eu-north-1"

/-- `S3._url(object_key)`. -/
def s3Url (objectKey : List Char) : List Char :=
  chars "https://" ++ chars S3_BUCKET ++ chars ".s3." ++ chars S3_REGION ++
  chars ".amazonaws.com/" ++ objectKey

/-- External collaborator model (spec wire contract): an HTTP `PUT` stores the
bytes at the URL and answers 200; `srv = false` injects a server failure
answering 500 without storing. -/
def httpPut (srv : Bool) (rm : Remote) (url : List Char) (data : Bytes) :
    Remote × Nat :=
  if srv then (assocSet rm url data, 200) else (rm, 500)

/-- External collaborator model (spec wire contract): an HTTP `GET` answers
200 with the stored bytes, or 404 with an empty body. -/
def httpGetReq (rm : Remote) (url : List Char) : Nat × Bytes :=
  match assocGet rm url with
  | some b => (200, b)
  | none => (404, [])

/-- `S3.put`: sanitize to a slash-joined object key, `PUT` to the derived URL,
non-2xx is a hard failure (`none` models the raised `RuntimeError`). -/
def s3Put (srv : Bool) (rm : Remote) (key : List Char) (data : Bytes) :
    Remote × Option (List Char) :=
  let objectKey := pathString (safe_relpath key)
  let res := httpPut srv rm (s3Url objectKey) data
  if res.2 = 200 ∨ res.2 = 201 then (res.1, some objectKey) else (res.1, none)

/-- `S3.get`: re-derive the URL from the locator and `GET` it; non-200 models
the raised `FileNotFoundError`. -/
def s3Get (rm : Remote) (locator : List Char) : Option Bytes :=
  let objectKey := pathString (safe_relpath locator)
  let res := httpGetReq rm (s3Url objectKey)
  if res.1 = 200 then some res.2 else none

/- ----------------------------------------------------------------
Metadata index and gateway service.
---------------------------------------------------------------- -/

/-- A `blob_meta` row. -/
structure MetaRec where
  id : List Char
  backend : String
  locator : List Char
  size : Nat
  created_at : Nat
deriving DecidableEq

/-- Insert into `blob_meta`: the commit fails (`none`) when the primary key
on `id` or the unique constraint `uq_backend_id` on `(backend, id)` is
violated. -/
def metaInsert (tbl : List MetaRec) (m : MetaRec) : Option (List MetaRec) :=
  if tbl.any fun r => decide (r.id = m.id) then none
  else if tbl.any fun r => decide (r.backend = m.backend ∧ r.id = m.id) then none
  else some (tbl ++ [m])

/-- Request body `BlobIn`. -/
structure BlobIn where
  id : List Char
  data : List Char
deriving DecidableEq

/-- Response body `BlobOut` (`created_at` kept as the abstract timestamp). -/
structure BlobOut where
  id : List Char
  data : List Char
  size : Nat
  created_at : Nat
deriving DecidableEq

/-- Whole-system state: metadata index plus the three backend stores. -/
structure Sys where
  meta : List MetaRec
  fs : FS
  blob_data : DBS
  s3obj : Remote
deriving DecidableEq

/-- Result of a store endpoint, by HTTP status: 200, 400 Invalid Base64,
409 Conflict, 502 backend error, and 500 for an uncaught database
integrity error on the metadata commit. -/
inductive StoreResult
  | stored (out : BlobOut)
  | invalidInput
  | conflict
  | backendError
  | serverError
deriving DecidableEq

/-- Result of a retrieve endpoint: 200, 404 Unknown id, 502 object missing. -/
inductive GetResult
  | found (out : BlobOut)
  | notFound
  | backendError
deriving DecidableEq

/-- `store_local` (`POST /v1/local/blobs`).  `ok` says whether the
filesystem write succeeds, `now` is the current timestamp. -/
def store_local (ok : Bool) (now : Nat) (st : Sys) (body : BlobIn) :
    Sys × StoreResult :=
  match b64decode body.data with
  | none => (st, .invalidInput)
  | some raw =>
    if st.meta.any fun r => decide (r.backend = "local" ∧ r.id = body.id) then
      (st, .conflict)
    else if ok then
      let res := fsPut st.fs body.id raw
      match metaInsert st.meta ⟨body.id, "local", res.2, raw.length, now⟩ with
      | none => ({ st with fs := res.1 }, .serverError)
      | some m2 =>
        ({ st with fs := res.1, meta := m2 },
         .stored ⟨body.id, body.data, raw.length, now⟩)
    else (st, .backendError)

/-- `get_local` (`GET /v1/local/blobs/{id}`). -/
def get_local (st : Sys) (i : List Char) : GetResult :=
  match st.meta.find? fun r => decide (r.backend = "local" ∧ r.id = i) with
  | none => .notFound
  | some m =>
    match fsGet st.fs m.locator with
    | none => .backendError
    | some raw => .found ⟨i, b64encode raw, m.size, m.created_at⟩

/-- `store_db` (`POST /v1/db/blobs`).  `ok` says whether the blob_data
transaction succeeds. -/
def store_db (ok : Bool) (now : Nat) (st : Sys) (body : BlobIn) :
    Sys × StoreResult :=
  match b64decode body.data with
  | none => (st, .invalidInput)
  | some raw =>
    if st.meta.any fun r => decide (r.backend = "db" ∧ r.id = body.id) then
      (st, .conflict)
    else if ok then
      let res := dbTablePut st.blob_data body.id raw
      match metaInsert st.meta ⟨body.id, "db", res.2, raw.length, now⟩ with
      | none => ({ st with blob_data := res.1 }, .serverError)
      | some m2 =>
        ({ st with blob_data := res.1, meta := m2 },
         .stored ⟨body.id, body.data, raw.length, now⟩)
    else (st, .backendError)

/-- `get_db_blob` (`GET /v1/db/blobs/{id}`). -/
def get_db_blob (st : Sys) (i : List Char) : GetResult :=
  match st.meta.find? fun r => decide (r.backend = "db" ∧ r.id = i) with
  | none => .notFound
  | some m =>
    match dbTableGet st.blob_data m.locator with
    | none => .backendError
    | some raw => .found ⟨i, b64encode raw, m.size, m.created_at⟩

/-- `store_s3` (`POST /v1/s3/blobs`).  `ok` says whether the remote store
accepts the `PUT`. -/
def store_s3 (ok : Bool) (now : Nat) (st : Sys) (body : BlobIn) :
    Sys × StoreResult :=
  match b64decode body.data with
  | none => (st, .invalidInput)
  | some raw =>
    if st.meta.any fun r => decide (r.backend = "s3" ∧ r.id = body.id) then
      (st, .conflict)
    else
      let res := s3Put ok st.s3obj body.id raw
      match res.2 with
      | none => ({ st with s3obj := res.1 }, .backendError)
      | some loc =>
        match metaInsert st.meta ⟨body.id, "s3", loc, raw.length, now⟩ with
        | none => ({ st with s3obj := res.1 }, .serverError)
        | some m2 =>
          ({ st with s3obj := res.1, meta := m2 },
           .stored ⟨body.id, body.data, raw.length, now⟩)

/-- `get_s3_blob` (`GET /v1/s3/blobs/{id}`). -/
def get_s3_blob (st : Sys) (i : List Char) : GetResult :=
  match st.meta.find? fun r => decide (r.backend = "s3" ∧ r.id = i) with
  | none => .notFound
  | some m =>
    match s3Get st.s3obj m.locator with
    | none => .backendError
    | some raw => .found ⟨i, b64encode raw, m.size, m.created_at⟩

/-- The empty system state. -/
def sys0 : Sys := ⟨[], [], [], []⟩

/-- A segment that can appear in the output of `safe_relpath`: nonempty,
made of allow-listed characters only, and not a dot segment. -/
def goodSeg (s : List Char) : Prop :=
  s ≠ [] ∧ s.all allowChar = true ∧ s ≠ chars "." ∧ s ≠ chars ".."

/-- The Key Sanitizer algorithm as the specification words it: split on
slash, trim whitespace, drop empty and dot segments, keep a segment
consisting only of allow-listed characters verbatim and otherwise replace
it by the first 16 hex characters of its hash, with a fixed fallback
segment when everything is dropped. -/
def sanitizeSpec (key : List Char) : List (List Char) :=
  let trimmed := (splitSlash (stripSlashes key)).map pyStrip
  let kept := trimmed.filter fun s => !decide (s = [] ∨ s = chars "." ∨ s = chars "..")
  let mapped := kept.map fun s => if s.all allowChar then s else hashSegment s
  if mapped = [] then [chars "blob"] else mapped

/- ----------------------------------------------------------------
Character and stripping lemmas.
---------------------------------------------------------------- -/

theorem allowChar_not_space {c : Char} (h : allowChar c = true) : isPySpace c = false := by
  simp only [allowChar, decide_eq_true_eq] at h
  simp only [isPySpace, decide_eq_false_iff_not]
  omega

theorem allowChar_ne_slash {c : Char} (h : allowChar c = true) : c ≠ '/' := by
  rintro rfl
  exact absurd h (by decide)

theorem hexChar_mem (n : Nat) : hexChar n ∈ hexDigits := by
  have hlt : n % 16 < hexDigits.length := by
    have h16 : hexDigits.length = 16 := rfl
    rw [h16]
    exact Nat.mod_lt n (by norm_num)
  rw [hexChar, List.getD_eq_getElem?_getD, List.getElem?_eq_getElem hlt]
  exact List.getElem_mem hlt

theorem hexDigits_allow : ∀ c ∈ hexDigits, allowChar c = true := by decide

theorem hexDigits_ne_dot : '.' ∉ hexDigits := by decide

theorem dropWhile_head_false {p : Char → Bool} :
    ∀ {l : List Char} {c : Char}, (List.dropWhile p l).head? = some c → p c = false := by
  intro l
  induction l with
  | nil => intro c h; simp [List.dropWhile] at h
  | cons a t ih =>
    intro c h
    rw [List.dropWhile_cons] at h
    by_cases hp : p a = true
    · rw [if_pos hp] at h
      exact ih h
    · rw [if_neg hp] at h
      simp only [List.head?_cons, Option.some.injEq] at h
      rw [← h]
      exact eq_false_of_ne_true hp

theorem stripChars_getLast_false {p : Char → Bool} {l : List Char} {c : Char}
    (h : (stripChars p l).getLast? = some c) : p c = false := by
  rw [stripChars, List.getLast?_reverse] at h
  exact dropWhile_head_false h

theorem dropWhile_head_cond {p : Char → Bool} {l : List Char}
    (h : ∀ c, l.head? = some c → p c = false) : List.dropWhile p l = l := by
  cases l with
  | nil => rfl
  | cons a t => rw [List.dropWhile_cons, if_neg (by simp [h a rfl])]

theorem stripChars_ends {p : Char → Bool} {l : List Char}
    (h1 : ∀ c, l.head? = some c → p c = false)
    (h2 : ∀ c, l.getLast? = some c → p c = false) : stripChars p l = l := by
  rw [stripChars, dropWhile_head_cond h1, dropWhile_head_cond, List.reverse_reverse]
  intro c hc
  rw [List.head?_reverse] at hc
  exact h2 c hc

theorem stripChars_forall_false {p : Char → Bool} {l : List Char}
    (h : ∀ c ∈ l, p c = false) : stripChars p l = l := by
  apply stripChars_ends
  · intro c hc
    exact h c (List.mem_of_mem_head? (by rw [hc]; exact rfl))
  · intro c hc
    have : c ∈ l.reverse := List.mem_of_mem_head? (by rw [List.head?_reverse, hc]; exact rfl)
    exact h c (List.mem_reverse.mp this)

/- ----------------------------------------------------------------
Split / join lemmas.
---------------------------------------------------------------- -/

theorem splitSlash_no_slash : ∀ {l : List Char}, '/' ∉ l → splitSlash l = [l] := by
  intro l
  induction l with
  | nil => intro _; rfl
  | cons c t ih =>
    intro h
    have hc : ¬c = '/' := fun hc => h (by rw [hc]; exact List.mem_cons_self _ _)
    have ht : '/' ∉ t := fun hm => h (List.mem_cons_of_mem _ hm)
    simp only [splitSlash, if_neg hc, ih ht]

theorem splitSlash_append {s : List Char} (hs : '/' ∉ s) (t : List Char) :
    splitSlash (s ++ '/' :: t) = s :: splitSlash t := by
  induction s with
  | nil => simp [splitSlash]
  | cons c s' ih =>
    have hc : ¬c = '/' := fun hc => hs (by rw [hc]; exact List.mem_cons_self _ _)
    have hs' : '/' ∉ s' := fun hm => hs (List.mem_cons_of_mem _ hm)
    simp only [List.cons_append, splitSlash, if_neg hc, List.append_eq, ih hs']

theorem splitSlash_joinSlash : ∀ {parts : List (List Char)}, parts ≠ [] →
    (∀ s ∈ parts, '/' ∉ s) → splitSlash (joinSlash parts) = parts := by
  intro parts
  induction parts with
  | nil => intro h; exact absurd rfl h
  | cons s rest ih =>
    intro _ h
    cases rest with
    | nil => exact splitSlash_no_slash (h s (List.mem_cons_self _ _))
    | cons s2 r =>
      show splitSlash (s ++ '/' :: joinSlash (s2 :: r)) = _
      rw [splitSlash_append (h s (List.mem_cons_self _ _)),
        ih (by simp) (fun x hx => h x (List.mem_cons_of_mem _ hx))]

theorem joinSlash_ne_nil {s : List Char} (hs : s ≠ []) (rest : List (List Char)) :
    joinSlash (s :: rest) ≠ [] := by
  cases rest with
  | nil => exact hs
  | cons s2 r =>
    show s ++ '/' :: joinSlash (s2 :: r) ≠ []
    simp

theorem joinSlash_head {s : List Char} (rest : List (List Char)) (hs : s ≠ []) :
    (joinSlash (s :: rest)).head? = s.head? := by
  cases rest with
  | nil => rfl
  | cons s2 r =>
    show (s ++ '/' :: joinSlash (s2 :: r)).head? = s.head?
    rw [List.head?_append]
    cases s with
    | nil => exact absurd rfl hs
    | cons a t => rfl

theorem joinSlash_getLast : ∀ {parts : List (List Char)}, parts ≠ [] →
    (∀ s ∈ parts, s ≠ []) →
    ∃ s ∈ parts, (joinSlash parts).getLast? = s.getLast? := by
  intro parts
  induction parts with
  | nil => intro h; exact absurd rfl h
  | cons s rest ih =>
    intro _ hne
    cases rest with
    | nil => exact ⟨s, List.mem_cons_self _ _, rfl⟩
    | cons s2 r =>
      obtain ⟨u, hu, he⟩ := ih (by simp) (fun x hx => hne x (List.mem_cons_of_mem _ hx))
      refine ⟨u, List.mem_cons_of_mem _ hu, ?_⟩
      show (s ++ '/' :: joinSlash (s2 :: r)).getLast? = u.getLast?
      rw [List.getLast?_append]
      have hjoin : joinSlash (s2 :: r) ≠ [] :=
        joinSlash_ne_nil (hne s2 (List.mem_cons_of_mem _ (List.mem_cons_self _ _))) r
      cases hl : (joinSlash (s2 :: r)).getLast? with
      | none => exact absurd (List.getLast?_eq_none_iff.mp hl) hjoin
      | some v =>
        have : ('/' :: joinSlash (s2 :: r)).getLast? = some v := by
          show ((['/'] : List Char) ++ joinSlash (s2 :: r)).getLast? = some v
          rw [List.getLast?_append, hl]
          rfl
        rw [this, Option.or_some, ← hl, he]

/- ----------------------------------------------------------------
Sanitized-segment properties.
---------------------------------------------------------------- -/

theorem sha256_length (msg : Bytes) : (sha256 msg).length = 32 := by
  rw [sha256, outBytes]
  simp [be32]

theorem sha256hex_mem {msg : Bytes} {c : Char} (h : c ∈ sha256hex msg) :
    c ∈ hexDigits := by
  rw [sha256hex, List.mem_flatten] at h
  obtain ⟨l, hl, hc⟩ := h
  rw [List.mem_map] at hl
  obtain ⟨b, _, rfl⟩ := hl
  rw [byteHex] at hc
  simp only [List.mem_cons, List.mem_singleton] at hc
  rcases hc with rfl | rfl | hc
  · exact hexChar_mem _
  · exact hexChar_mem _
  · cases hc

theorem hashSegment_mem {s : List Char} {c : Char} (h : c ∈ hashSegment s) :
    c ∈ hexDigits :=
  sha256hex_mem (List.mem_of_mem_take h)

theorem hashSegment_ne_nil (s : List Char) : hashSegment s ≠ [] := by
  have h32 := sha256_length (utf8Encode s)
  intro h
  rw [hashSegment, List.take_eq_nil_iff] at h
  rcases h with h | h
  · exact absurd h (by norm_num)
  · rw [sha256hex] at h
    cases hb : sha256 (utf8Encode s) with
    | nil => rw [hb] at h32; simp at h32
    | cons b rest => rw [hb] at h; simp [byteHex] at h

theorem goodSeg_hash (s : List Char) : goodSeg (hashSegment s) := by
  refine ⟨hashSegment_ne_nil s, ?_, ?_, ?_⟩
  · rw [List.all_eq_true]
    intro c hc
    exact hexDigits_allow c (hashSegment_mem hc)
  · intro h
    have hd : '.' ∈ hashSegment s := by rw [h]; decide
    exact hexDigits_ne_dot (hashSegment_mem hd)
  · intro h
    have hd : '.' ∈ hashSegment s := by rw [h]; decide
    exact hexDigits_ne_dot (hashSegment_mem hd)

theorem pyStrip_getLast_not_space {l : List Char} {c : Char}
    (h : (pyStrip l).getLast? = some c) : isPySpace c = false :=
  stripChars_getLast_false h

theorem matchSafe_all_allow {s l : List Char} (hstrip : pyStrip l = s)
    (hm : matchSafe s = true) : s.all allowChar = true := by
  rw [matchSafe, Bool.or_eq_true] at hm
  rcases hm with h1 | h2
  · exact (Bool.and_eq_true _ _ |>.mp h1).2
  · rw [Bool.and_eq_true, Bool.and_eq_true] at h2
    have hl : s.getLast? = some '\n' := of_decide_eq_true h2.1.1
    have := pyStrip_getLast_not_space (hstrip ▸ hl)
    exact absurd this (by decide)

theorem sanitizeSeg_good {seg s : List Char} (h : sanitizeSeg seg = some s) :
    goodSeg s := by
  rw [sanitizeSeg] at h
  by_cases hd : pyStrip seg = [] ∨ pyStrip seg = chars "." ∨ pyStrip seg = chars ".."
  · rw [if_pos hd] at h
    cases h
  · rw [if_neg hd] at h
    push_neg at hd
    rw [Option.some.injEq] at h
    by_cases hm : matchSafe (pyStrip seg) = true
    · rw [if_pos hm] at h
      subst h
      exact ⟨hd.1, matchSafe_all_allow rfl hm, hd.2.1, hd.2.2⟩
    · rw [if_neg hm] at h
      subst h
      exact goodSeg_hash _

theorem safe_relpath_good {key s : List Char} (h : s ∈ safe_relpath key) :
    goodSeg s := by
  rw [safe_relpath] at h
  by_cases hp : (splitSlash (stripSlashes key)).filterMap sanitizeSeg = []
  · rw [if_pos hp] at h
    rw [List.mem_singleton] at h
    subst h
    refine ⟨by decide, by decide, by decide, by decide⟩
  · rw [if_neg hp] at h
    rw [List.mem_filterMap] at h
    obtain ⟨seg, _, hs⟩ := h
    exact sanitizeSeg_good hs

theorem safe_relpath_ne_nil (key : List Char) : safe_relpath key ≠ [] := by
  rw [safe_relpath]
  split
  · simp
  · next hp => exact hp

/- ----------------------------------------------------------------
Idempotence of the sanitizer on its own output.
---------------------------------------------------------------- -/

theorem sanitizeSeg_of_good {s : List Char} (h : goodSeg s) : sanitizeSeg s = some s := by
  obtain ⟨hne, hall, hdot, hddot⟩ := h
  have hstrip : pyStrip s = s :=
    stripChars_forall_false fun c hc => allowChar_not_space (List.all_eq_true.mp hall c hc)
  rw [sanitizeSeg]
  rw [if_neg (by rw [hstrip]; tauto)]
  rw [hstrip]
  have hm : matchSafe s = true := by
    rw [matchSafe, Bool.or_eq_true]
    left
    rw [Bool.and_eq_true]
    exact ⟨by rw [Bool.not_eq_true', List.isEmpty_eq_false]; exact hne, hall⟩
  rw [if_pos hm]

theorem filterMap_sanitize_good : ∀ {parts : List (List Char)},
    (∀ s ∈ parts, goodSeg s) → parts.filterMap sanitizeSeg = parts := by
  intro parts
  induction parts with
  | nil => intro _; rfl
  | cons s rest ih =>
    intro h
    rw [List.filterMap_cons, sanitizeSeg_of_good (h s (List.mem_cons_self _ _)),
      ih fun x hx => h x (List.mem_cons_of_mem _ hx)]

theorem safe_relpath_pathString {parts : List (List Char)} (hp : parts ≠ [])
    (hg : ∀ s ∈ parts, goodSeg s) : safe_relpath (pathString parts) = parts := by
  have hns : ∀ s ∈ parts, '/' ∉ s := fun s hs hc =>
    allowChar_ne_slash (List.all_eq_true.mp (hg s hs).2.1 _ hc) rfl
  have hne : ∀ s ∈ parts, s ≠ [] := fun s hs => (hg s hs).1
  have hstrip : stripSlashes (joinSlash parts) = joinSlash parts := by
    apply stripChars_ends
    · intro c hc
      cases parts with
      | nil => exact absurd rfl hp
      | cons s rest =>
        rw [joinSlash_head rest (hne s (List.mem_cons_self _ _))] at hc
        have hm : c ∈ s := List.mem_of_mem_head? (by rw [hc]; exact rfl)
        have := allowChar_ne_slash
          (List.all_eq_true.mp (hg s (List.mem_cons_self _ _)).2.1 _ hm)
        simp [this]
    · intro c hc
      obtain ⟨u, hu, he⟩ := joinSlash_getLast hp hne
      rw [he] at hc
      have hm : c ∈ u := by
        have : c ∈ u.reverse := List.mem_of_mem_head? (by rw [List.head?_reverse, hc]; exact rfl)
        exact List.mem_reverse.mp this
      have := allowChar_ne_slash (List.all_eq_true.mp (hg u hu).2.1 _ hm)
      simp [this]
  rw [pathString, safe_relpath, hstrip, splitSlash_joinSlash hp hns,
    filterMap_sanitize_good hg, if_neg hp]

/-- Idempotence: re-sanitizing the slash-joined output of `safe_relpath`
reproduces it. -/
theorem safe_relpath_idem (key : List Char) :
    safe_relpath (pathString (safe_relpath key)) = safe_relpath key :=
  safe_relpath_pathString (safe_relpath_ne_nil key) fun _ hs => safe_relpath_good hs

/- ----------------------------------------------------------------
The sanitizer agrees with the specification-worded algorithm.
---------------------------------------------------------------- -/

theorem matchSafe_eq_all {l s : List Char} (hstrip : pyStrip l = s) (hne : s ≠ []) :
    matchSafe s = s.all allowChar := by
  by_cases hall : s.all allowChar = true
  · have hie : s.isEmpty = false := List.isEmpty_eq_false.mpr hne
    simp [matchSafe, hall, hie]
  · have hall' := eq_false_of_ne_true hall
    have hnl : decide (s.getLast? = some '\n') = false := by
      rw [decide_eq_false_iff_not]
      intro hl
      have := pyStrip_getLast_not_space (hstrip ▸ hl)
      exact absurd this (by decide)
    simp [matchSafe, hall', hnl]

theorem filterMap_sanitize_spec : ∀ l : List (List Char),
    l.filterMap sanitizeSeg =
      ((l.map pyStrip).filter fun s =>
          !decide (s = [] ∨ s = chars "." ∨ s = chars "..")).map
        fun s => if s.all allowChar then s else hashSegment s := by
  intro l
  induction l with
  | nil => rfl
  | cons seg rest ih =>
    rw [List.filterMap_cons, List.map_cons, List.filter_cons]
    by_cases hd : pyStrip seg = [] ∨ pyStrip seg = chars "." ∨ pyStrip seg = chars ".."
    · have h1 : sanitizeSeg seg = none := by rw [sanitizeSeg, if_pos hd]
      have h2 : (!decide (pyStrip seg = [] ∨ pyStrip seg = chars "." ∨
          pyStrip seg = chars "..")) = false := by simp [hd]
      rw [h1, h2]
      simpa using ih
    · have hne : pyStrip seg ≠ [] := fun h => hd (Or.inl h)
      have h1 : sanitizeSeg seg = some (if matchSafe (pyStrip seg) then pyStrip seg
          else hashSegment (pyStrip seg)) := by rw [sanitizeSeg, if_neg hd]
      have h2 : (!decide (pyStrip seg = [] ∨ pyStrip seg = chars "." ∨
          pyStrip seg = chars "..")) = true := by simp [hd]
      rw [h1, h2]
      have hms := matchSafe_eq_all rfl hne
      by_cases hall : (pyStrip seg).all allowChar = true
      · rw [if_pos (hms.trans hall), if_pos rfl, List.map_cons, if_pos hall, ih]
      · have hms' : matchSafe (pyStrip seg) = false := hms.trans (eq_false_of_ne_true hall)
        rw [if_neg (by rw [hms']; exact Bool.false_ne_true), if_pos rfl, List.map_cons,
          if_neg hall, ih]

/- ----------------------------------------------------------------
Association-list and metadata-index helper lemmas.
---------------------------------------------------------------- -/

theorem assocGet_set_self {α β : Type} [DecidableEq α] (l : List (α × β)) (k : α) (v : β) :
    assocGet (assocSet l k v) k = some v := by
  rw [assocSet, assocGet, if_pos rfl]

theorem assocGet_erase_self {α β : Type} [DecidableEq α] :
    ∀ (l : List (α × β)) (k : α), assocGet (assocErase l k) k = none := by
  intro l k
  induction l with
  | nil => rfl
  | cons p rest ih =>
    cases p with
    | mk a v =>
      rw [assocErase]
      by_cases ha : a = k
      · rw [if_pos ha]; exact ih
      · rw [if_neg ha, assocGet, if_neg ha]; exact ih

theorem assocGet_erase_ne {α β : Type} [DecidableEq α] {k k' : α} (h : ¬k' = k) :
    ∀ l : List (α × β), assocGet (assocErase l k) k' = assocGet l k' := by
  intro l
  induction l with
  | nil => rfl
  | cons p rest ih =>
    cases p with
    | mk a v =>
      rw [assocErase, assocGet]
      by_cases ha : a = k
      · rw [if_pos ha, if_neg (fun hk => h (hk.symm.trans ha))]
        exact ih
      · rw [if_neg ha, assocGet]
        by_cases ha' : a = k'
        · rw [if_pos ha', if_pos ha']
        · rw [if_neg ha', if_neg ha']
          exact ih

theorem assocGet_append {α β : Type} [DecidableEq α] :
    ∀ (l1 l2 : List (α × β)) (k : α),
      assocGet (l1 ++ l2) k = (assocGet l1 k).or (assocGet l2 k) := by
  intro l1 l2 k
  induction l1 with
  | nil => rfl
  | cons p rest ih =>
    cases p with
    | mk a v =>
      rw [List.cons_append, assocGet, assocGet]
      by_cases ha : a = k
      · rw [if_pos ha, if_pos ha, Option.or_some]
      · rw [if_neg ha, if_neg ha]
        exact ih

theorem assocGet_append_right {α β : Type} [DecidableEq α] {l : List (α × β)} {k : α}
    {v : β} (h : assocGet l k = none) : assocGet (l ++ [(k, v)]) k = some v := by
  rw [assocGet_append, h]
  rw [assocGet, if_pos rfl]
  rfl

theorem any_id_false {tbl : List MetaRec} {i : List Char} (b : String)
    (h : tbl.any (fun r => decide (r.id = i)) = false) :
    tbl.any (fun r => decide (r.backend = b ∧ r.id = i)) = false := by
  rw [List.any_eq_false] at h ⊢
  intro r hr
  have hb := h r hr
  simp only [decide_eq_true_eq] at hb ⊢
  exact fun hc => hb hc.2

theorem metaInsert_of_fresh (tbl : List MetaRec) (m : MetaRec)
    (h : tbl.any (fun r => decide (r.id = m.id)) = false) :
    metaInsert tbl m = some (tbl ++ [m]) := by
  rw [metaInsert, if_neg (by rw [h]; exact Bool.false_ne_true),
    if_neg (by rw [any_id_false m.backend h]; exact Bool.false_ne_true)]

theorem metaInsert_some_inv {tbl tbl2 : List MetaRec} {m : MetaRec}
    (h : metaInsert tbl m = some tbl2) :
    tbl.any (fun r => decide (r.id = m.id)) = false ∧ tbl2 = tbl ++ [m] := by
  rw [metaInsert] at h
  split_ifs at h with h1 h2
  · exact ⟨eq_false_of_ne_true h1, (Option.some.injEq _ _).mp h |>.symm⟩

theorem find?_append_of_none {l : List MetaRec} {p : MetaRec → Bool} {m : MetaRec}
    (h : l.any p = false) (hm : p m = true) : (l ++ [m]).find? p = some m := by
  rw [List.find?_append, List.find?_eq_none.mpr (by rw [List.any_eq_false] at h; exact h)]
  simp [List.find?_cons, hm]

/- ----------------------------------------------------------------
Inversion of a successful store.
---------------------------------------------------------------- -/

theorem store_local_stored_inv (st st1 : Sys) (body : BlobIn) (now : Nat) (out : BlobOut)
    (h : store_local true now st body = (st1, .stored out)) :
    ∃ raw, b64decode body.data = some raw ∧
      st.meta.any (fun r => decide (r.backend = "local" ∧ r.id = body.id)) = false ∧
      st.meta.any (fun r => decide (r.id = body.id)) = false ∧
      st1 = { st with
        fs := assocSet st.fs (safe_relpath body.id) raw,
        meta := st.meta ++
          [⟨body.id, "local", pathString (safe_relpath body.id), raw.length, now⟩] } ∧
      out = ⟨body.id, body.data, raw.length, now⟩ := by
  cases hdec : b64decode body.data with
  | none => simp [store_local, hdec] at h
  | some raw =>
    by_cases hc : st.meta.any (fun r => decide (r.backend = "local" ∧ r.id = body.id)) = true
    · simp only [store_local, hdec] at h
      rw [if_pos hc] at h
      simp at h
    · simp only [store_local, hdec, hc, fsPut, Bool.false_eq_true, if_false, if_true] at h
      cases hmi : metaInsert st.meta
          ⟨body.id, "local", pathString (safe_relpath body.id), raw.length, now⟩ with
      | none => simp [hmi] at h
      | some m2 =>
        simp only [hmi, Prod.mk.injEq, StoreResult.stored.injEq] at h
        obtain ⟨hst1, hout⟩ := h
        obtain ⟨hfr, hm2⟩ := metaInsert_some_inv hmi
        exact ⟨raw, rfl, eq_false_of_ne_true hc, hfr, by rw [← hst1, hm2], hout.symm⟩

theorem store_db_stored_inv (st st1 : Sys) (body : BlobIn) (now : Nat) (out : BlobOut)
    (h : store_db true now st body = (st1, .stored out)) :
    ∃ raw, b64decode body.data = some raw ∧
      st.meta.any (fun r => decide (r.backend = "db" ∧ r.id = body.id)) = false ∧
      st.meta.any (fun r => decide (r.id = body.id)) = false ∧
      st1 = { st with
        blob_data := (if (assocGet st.blob_data body.id).isSome then
            assocErase st.blob_data body.id else st.blob_data) ++ [(body.id, raw)],
        meta := st.meta ++ [⟨body.id, "db", body.id, raw.length, now⟩] } ∧
      out = ⟨body.id, body.data, raw.length, now⟩ := by
  cases hdec : b64decode body.data with
  | none => simp [store_db, hdec] at h
  | some raw =>
    by_cases hc : st.meta.any (fun r => decide (r.backend = "db" ∧ r.id = body.id)) = true
    · simp only [store_db, hdec] at h
      rw [if_pos hc] at h
      simp at h
    · simp only [store_db, hdec, hc, dbTablePut, Bool.false_eq_true, if_false, if_true] at h
      cases hmi : metaInsert st.meta ⟨body.id, "db", body.id, raw.length, now⟩ with
      | none => simp [hmi] at h
      | some m2 =>
        simp only [hmi, Prod.mk.injEq, StoreResult.stored.injEq] at h
        obtain ⟨hst1, hout⟩ := h
        obtain ⟨hfr, hm2⟩ := metaInsert_some_inv hmi
        exact ⟨raw, rfl, eq_false_of_ne_true hc, hfr, by rw [← hst1, hm2], hout.symm⟩

theorem store_s3_stored_inv (st st1 : Sys) (body : BlobIn) (now : Nat) (out : BlobOut)
    (h : store_s3 true now st body = (st1, .stored out)) :
    ∃ raw, b64decode body.data = some raw ∧
      st.meta.any (fun r => decide (r.backend = "s3" ∧ r.id = body.id)) = false ∧
      st.meta.any (fun r => decide (r.id = body.id)) = false ∧
      st1 = { st with
        s3obj := assocSet st.s3obj (s3Url (pathString (safe_relpath body.id))) raw,
        meta := st.meta ++
          [⟨body.id, "s3", pathString (safe_relpath body.id), raw.length, now⟩] } ∧
      out = ⟨body.id, body.data, raw.length, now⟩ := by
  cases hdec : b64decode body.data with
  | none => simp [store_s3, hdec] at h
  | some raw =>
    by_cases hc : st.meta.any (fun r => decide (r.backend = "s3" ∧ r.id = body.id)) = true
    · simp only [store_s3, hdec] at h
      rw [if_pos hc] at h
      simp at h
    · simp only [store_s3, hdec, hc, s3Put, httpPut, Bool.false_eq_true, if_false, if_true,
        true_or] at h
      cases hmi : metaInsert st.meta
          ⟨body.id, "s3", pathString (safe_relpath body.id), raw.length, now⟩ with
      | none => simp [hmi] at h
      | some m2 =>
        simp only [hmi, Prod.mk.injEq, StoreResult.stored.injEq] at h
        obtain ⟨hst1, hout⟩ := h
        obtain ⟨hfr, hm2⟩ := metaInsert_some_inv hmi
        exact ⟨raw, rfl, eq_false_of_ne_true hc, hfr, by rw [← hst1, hm2], hout.symm⟩

/- ----------------------------------------------------------------
Claim theorems.
---------------------------------------------------------------- -/

/-- Claim C1 (refuted by the code): the claim says a metadata insert fails
exactly when a record with the same `(backend, id)` pair is present, so the
same id under two different backends creates two records.  In the code
`BlobMeta.id` is the table's primary key, so inserting id `"x"` for backend
`"db"` fails even though only a `("local", "x")` record exists, and the
gateway surfaces this as an uncaught integrity error (HTTP 500) after the
backend write already happened. -/
theorem C1_metadata_unique_pair :
    (([({ id := chars "x", backend := "local", locator := chars "x", size := 5,
          created_at := 0 } : MetaRec)].any
        fun r => decide (r.backend = "db" ∧ r.id = chars "x")) = false) ∧
    metaInsert
      [{ id := chars "x", backend := "local", locator := chars "x", size := 5,
         created_at := 0 }]
      { id := chars "x", backend := "db", locator := chars "x", size := 5,
        created_at := 1 } = none ∧
    (store_db true 1 (store_local true 0 sys0 ⟨chars "x", chars "aGVsbG8="⟩).1
      ⟨chars "x", chars "aGVsbG8="⟩).2 = .serverError :=
  ⟨by decide, by decide, by decide⟩

/-- Claim C2: round-trip fidelity — for every byte string and id, the
adapter's `get` on the locator returned by `put` returns exactly the stored
bytes, for the local filesystem, database table and remote object store
adapters (the remote server behaving per the wire contract). -/
theorem C2_roundtrip :
    (∀ (fs : FS) (key : List Char) (data : Bytes),
      fsGet (fsPut fs key data).1 (fsPut fs key data).2 = some data) ∧
    (∀ (tbl : DBS) (key : List Char) (data : Bytes),
      dbTableGet (dbTablePut tbl key data).1 (dbTablePut tbl key data).2 = some data) ∧
    (∀ (rm : Remote) (key : List Char) (data : Bytes),
      (s3Put true rm key data).2 = some (pathString (safe_relpath key)) ∧
      s3Get (s3Put true rm key data).1 (pathString (safe_relpath key)) = some data) := by
  refine ⟨?_, ?_, ?_⟩
  · intro fs key data
    simp only [fsPut, fsGet]
    rw [safe_relpath_idem]
    exact assocGet_set_self _ _ _
  · intro tbl key data
    simp only [dbTablePut, dbTableGet]
    apply assocGet_append_right
    by_cases h : (assocGet tbl key).isSome
    · rw [if_pos h]; exact assocGet_erase_self _ _
    · rw [if_neg h]; exact Option.not_isSome_iff_eq_none.mp h
  · intro rm key data
    have hput : s3Put true rm key data =
        (assocSet rm (s3Url (pathString (safe_relpath key))) data,
         some (pathString (safe_relpath key))) := rfl
    rw [hput]
    refine ⟨rfl, ?_⟩
    simp only [s3Get, httpGetReq]
    rw [safe_relpath_idem, assocGet_set_self]
    rfl

/-- Claim C6: a store request whose data is not valid base64 fails with
InvalidInput for every backend, leaving the whole state unchanged. -/
theorem C6_invalid_input (st : Sys) (body : BlobIn) (now : Nat) (ok : Bool)
    (h : b64decode body.data = none) :
    store_local ok now st body = (st, .invalidInput) ∧
    store_db ok now st body = (st, .invalidInput) ∧
    store_s3 ok now st body = (st, .invalidInput) := by
  refine ⟨?_, ?_, ?_⟩
  · simp only [store_local, h]
  · simp only [store_db, h]
  · simp only [store_s3, h]

/-- Witness for C6 at the spec's own scenario: id `"x"`, data `"not-base64!"`. -/
theorem C6_invalid_input_witness :
    store_local true 0 sys0 ⟨chars "x", chars "not-base64!"⟩ = (sys0, .invalidInput) ∧
    store_db true 0 sys0 ⟨chars "x", chars "not-base64!"⟩ = (sys0, .invalidInput) ∧
    store_s3 true 0 sys0 ⟨chars "x", chars "not-base64!"⟩ = (sys0, .invalidInput) :=
  C6_invalid_input sys0 ⟨chars "x", chars "not-base64!"⟩ 0 true (by decide)

/-- Claim C7: the Key Sanitizer implements exactly the specified algorithm
(split on slash, trim, drop empty and dot segments, keep allow-listed
segments verbatim, hash the rest to 16 hex characters, fixed fallback when
everything is dropped), and sanitizing `"a/b/../c"` yields `a/b/c`. -/
theorem C7_sanitizer_algorithm :
    (∀ key : List Char, safe_relpath key = sanitizeSpec key) ∧
    safe_relpath (chars "a/b/../c") = [chars "a", chars "b", chars "c"] := by
  constructor
  · intro key
    simp only [safe_relpath, sanitizeSpec, filterMap_sanitize_spec]
  · decide

/-- Claim C8: the sanitizer is deterministic (it is a function of the key)
and idempotent — sanitizing the slash-joined path produced by a first
sanitization returns the same path. -/
theorem C8_sanitizer_idempotent :
    (∀ k1 k2 : List Char, k1 = k2 → safe_relpath k1 = safe_relpath k2) ∧
    (∀ key : List Char, safe_relpath (pathString (safe_relpath key)) = safe_relpath key) :=
  ⟨fun _ _ h => h ▸ rfl, safe_relpath_idem⟩

/-- Claim C9: the database adapter stores the bytes in a row keyed by the
caller id itself (no sanitizer — the locator is the id verbatim), `put`
overwrites an existing row and preserves all other rows, and `get` reports
not-found exactly on missing rows. -/
theorem C9_db_adapter (tbl : DBS) (key : List Char) (data : Bytes) :
    (dbTablePut tbl key data).2 = key ∧
    dbTableGet (dbTablePut tbl key data).1 key = some data ∧
    (∀ k : List Char, k ≠ key →
      dbTableGet (dbTablePut tbl key data).1 k = dbTableGet tbl k) ∧
    (∀ l : List Char, assocGet tbl l = none → dbTableGet tbl l = none) := by
  refine ⟨rfl, ?_, ?_, fun l h => h⟩
  · simp only [dbTablePut, dbTableGet]
    apply assocGet_append_right
    by_cases h : (assocGet tbl key).isSome
    · rw [if_pos h]; exact assocGet_erase_self _ _
    · rw [if_neg h]; exact Option.not_isSome_iff_eq_none.mp h
  · intro k hk
    simp only [dbTablePut, dbTableGet]
    rw [assocGet_append]
    have h2 : assocGet [(key, data)] k = none := by
      rw [assocGet, if_neg (fun hkk => hk (hkk.symm)), assocGet]
    rw [h2]
    by_cases h : (assocGet tbl key).isSome
    · rw [if_pos h, assocGet_erase_ne hk]
      cases assocGet tbl k <;> rfl
    · rw [if_neg h]
      cases assocGet tbl k <;> rfl

/-- Witness for C9: an id the sanitizer would rewrite is used verbatim as
row key and locator; unrelated rows and missing rows behave as stated. -/
theorem C9_db_adapter_witness :
    (dbTablePut [] (chars "a/../b !") [7]).2 = chars "a/../b !" ∧
    dbTableGet (dbTablePut [] (chars "a/../b !") [7]).1 (chars "z") =
      dbTableGet [] (chars "z") ∧
    dbTableGet [] (chars "z") = none :=
  ⟨(C9_db_adapter [] (chars "a/../b !") [7]).1,
   (C9_db_adapter [] (chars "a/../b !") [7]).2.2.1 (chars "z") (by decide),
   (C9_db_adapter [] (chars "a/../b !") [7]).2.2.2 (chars "z") (by decide)⟩

/-- Claim C10: every segment of every `safe_relpath` output matches the
allow-list pattern (nonempty, only `[A-Za-z0-9._-]` characters), and is
never `".."`, never empty, and never contains a path separator. -/
theorem C10_segments_safe (key s : List Char) (h : s ∈ safe_relpath key) :
    (s ≠ [] ∧ s.all allowChar = true) ∧ s ≠ chars ".." ∧ '/' ∉ s := by
  have hg := safe_relpath_good h
  exact ⟨⟨hg.1, hg.2.1⟩, hg.2.2.2,
    fun hc => allowChar_ne_slash (List.all_eq_true.mp hg.2.1 _ hc) rfl⟩

/-- Witness for C10 on the first output segment of key `"a/b"`. -/
theorem C10_segments_safe_witness :
    (chars "a" ∈ safe_relpath (chars "a/b")) ∧
    ((chars "a" ≠ [] ∧ (chars "a").all allowChar = true) ∧
      chars "a" ≠ chars ".." ∧ '/' ∉ chars "a") :=
  have hm : chars "a" ∈ safe_relpath (chars "a/b") := by
    rw [show safe_relpath (chars "a/b") = [chars "a", chars "b"] by decide]
    exact List.mem_cons_self _ _
  ⟨hm, C10_segments_safe (chars "a/b") (chars "a") hm⟩

/-- Claim C3 as stated is false at a concrete input: with id `"x"` already
stored under the local backend, storing `"x"` to the s3 backend while the
remote rejects the `PUT` does yield BackendError with the state unchanged,
but the claimed subsequent success once the backend accepts the write does
not happen — the retry passes the per-backend pre-check, writes the backend
object, then dies on the metadata table's id primary key (HTTP 500). -/
theorem C3_backend_failure_counterexample :
    store_s3 false 1 (store_local true 0 sys0 ⟨chars "x", chars "aGVsbG8="⟩).1
        ⟨chars "x", chars "aGVsbG8="⟩ =
      ((store_local true 0 sys0 ⟨chars "x", chars "aGVsbG8="⟩).1, .backendError) ∧
    (store_s3 true 2 (store_local true 0 sys0 ⟨chars "x", chars "aGVsbG8="⟩).1
        ⟨chars "x", chars "aGVsbG8="⟩).2 = .serverError :=
  ⟨by decide, by decide⟩

/-- Claim C3 (amended): when the selected backend adapter's put fails, the
store operation fails with BackendError and the whole state — in particular
the metadata index — is unchanged, whenever the put is reached at all (the
request decoded and passed the per-backend pre-check); a subsequent store
with the same `(backend, id)` succeeds once the backend accepts the write
provided the id is not yet registered under any backend, while with the same
id registered under a different backend the retry instead fails with an
internal error at the metadata commit (the id primary key). -/
theorem C3_backend_failure (st : Sys) (body : BlobIn) (now : Nat) (raw : Bytes)
    (hdec : b64decode body.data = some raw) :
    (st.meta.any (fun r => decide (r.backend = "local" ∧ r.id = body.id)) = false →
      store_local false now st body = (st, .backendError)) ∧
    (st.meta.any (fun r => decide (r.backend = "db" ∧ r.id = body.id)) = false →
      store_db false now st body = (st, .backendError)) ∧
    (st.meta.any (fun r => decide (r.backend = "s3" ∧ r.id = body.id)) = false →
      store_s3 false now st body = (st, .backendError)) ∧
    (st.meta.any (fun r => decide (r.id = body.id)) = false →
      (store_local true now st body).2 = .stored ⟨body.id, body.data, raw.length, now⟩ ∧
      (store_db true now st body).2 = .stored ⟨body.id, body.data, raw.length, now⟩ ∧
      (store_s3 true now st body).2 = .stored ⟨body.id, body.data, raw.length, now⟩) ∧
    (st.meta.any (fun r => decide (r.id = body.id)) = true →
      (st.meta.any (fun r => decide (r.backend = "local" ∧ r.id = body.id)) = false →
        (store_local true now st body).2 = .serverError) ∧
      (st.meta.any (fun r => decide (r.backend = "db" ∧ r.id = body.id)) = false →
        (store_db true now st body).2 = .serverError) ∧
      (st.meta.any (fun r => decide (r.backend = "s3" ∧ r.id = body.id)) = false →
        (store_s3 true now st body).2 = .serverError)) := by
  refine ⟨fun hl => ?_, fun hd => ?_, fun hs => ?_, fun hfresh => ?_, fun hid => ?_⟩
  · simp only [store_local, hdec, hl, Bool.false_eq_true, if_false]
  · simp only [store_db, hdec, hd, Bool.false_eq_true, if_false]
  · simp only [store_s3, hdec, hs, Bool.false_eq_true, if_false, s3Put, httpPut,
      show ((500 : Nat) = 200 ∨ (500 : Nat) = 201) = False by norm_num]
  · have hl := any_id_false "local" hfresh
    have hd := any_id_false "db" hfresh
    have hs := any_id_false "s3" hfresh
    have hml := metaInsert_of_fresh st.meta
      ⟨body.id, "local", pathString (safe_relpath body.id), raw.length, now⟩ hfresh
    have hmd := metaInsert_of_fresh st.meta ⟨body.id, "db", body.id, raw.length, now⟩ hfresh
    have hms := metaInsert_of_fresh st.meta
      ⟨body.id, "s3", pathString (safe_relpath body.id), raw.length, now⟩ hfresh
    refine ⟨?_, ?_, ?_⟩
    · simp only [store_local, hdec, hl, Bool.false_eq_true, if_false, if_true, fsPut, hml]
    · simp only [store_db, hdec, hd, Bool.false_eq_true, if_false, if_true, dbTablePut, hmd]
    · simp only [store_s3, hdec, hs, Bool.false_eq_true, if_false, if_true, true_or, s3Put,
        httpPut, hms]
  · have hml : metaInsert st.meta
        ⟨body.id, "local", pathString (safe_relpath body.id), raw.length, now⟩ = none := by
      rw [metaInsert, if_pos hid]
    have hmd : metaInsert st.meta ⟨body.id, "db", body.id, raw.length, now⟩ = none := by
      rw [metaInsert, if_pos hid]
    have hms : metaInsert st.meta
        ⟨body.id, "s3", pathString (safe_relpath body.id), raw.length, now⟩ = none := by
      rw [metaInsert, if_pos hid]
    refine ⟨fun hl => ?_, fun hd => ?_, fun hs => ?_⟩
    · simp only [store_local, hdec, hl, Bool.false_eq_true, if_false, if_true, fsPut, hml]
    · simp only [store_db, hdec, hd, Bool.false_eq_true, if_false, if_true, dbTablePut, hmd]
    · simp only [store_s3, hdec, hs, Bool.false_eq_true, if_false, if_true, true_or, s3Put,
        httpPut, hms]

/-- Witness for the amended C3 at the spec's scenario: the remote store
rejects the `PUT` (HTTP 500) so the store yields BackendError with no
metadata written, and the same request succeeds once the store accepts it. -/
theorem C3_backend_failure_witness :
    store_s3 false 0 sys0 ⟨chars "x", chars "aGVsbG8="⟩ = (sys0, .backendError) ∧
    (store_s3 true 0 sys0 ⟨chars "x", chars "aGVsbG8="⟩).2 =
      .stored ⟨chars "x", chars "aGVsbG8=", 5, 0⟩ :=
  have h := C3_backend_failure sys0 ⟨chars "x", chars "aGVsbG8="⟩ 0
    [104, 101, 108, 108, 111] (by decide)
  ⟨h.2.2.1 (by decide), (h.2.2.2.1 (by decide)).2.2⟩

/-- Claim C4: after a successful store, a second store with the same
`(backend, id)` yields Conflict and leaves the state unchanged, and the
object stored by the first attempt remains retrievable with its original
bytes (and original size and timestamp). -/
theorem C4_duplicate_rejected (st st1 : Sys) (body : BlobIn) (now now2 : Nat)
    (out : BlobOut) :
    (store_local true now st body = (st1, .stored out) →
      store_local true now2 st1 body = (st1, .conflict) ∧
      ∃ raw, b64decode body.data = some raw ∧
        get_local st1 body.id = .found ⟨body.id, b64encode raw, raw.length, now⟩) ∧
    (store_db true now st body = (st1, .stored out) →
      store_db true now2 st1 body = (st1, .conflict) ∧
      ∃ raw, b64decode body.data = some raw ∧
        get_db_blob st1 body.id = .found ⟨body.id, b64encode raw, raw.length, now⟩) ∧
    (store_s3 true now st body = (st1, .stored out) →
      store_s3 true now2 st1 body = (st1, .conflict) ∧
      ∃ raw, b64decode body.data = some raw ∧
        get_s3_blob st1 body.id = .found ⟨body.id, b64encode raw, raw.length, now⟩) := by
  refine ⟨fun h => ?_, fun h => ?_, fun h => ?_⟩
  · obtain ⟨raw, hdec, hconf, hfr, hst1, hout⟩ := store_local_stored_inv st st1 body now out h
    have hc2 : st1.meta.any (fun r => decide (r.backend = "local" ∧ r.id = body.id)) = true := by
      rw [hst1]; simp [List.any_append]
    refine ⟨?_, raw, hdec, ?_⟩
    · simp only [store_local, hdec]
      rw [if_pos hc2]
    · have hfind : st1.meta.find?
          (fun r => decide (r.backend = "local" ∧ r.id = body.id)) =
          some ⟨body.id, "local", pathString (safe_relpath body.id), raw.length, now⟩ := by
        rw [hst1]
        exact find?_append_of_none hconf (by simp)
      have hget : fsGet st1.fs (pathString (safe_relpath body.id)) = some raw := by
        rw [hst1]
        simp only [fsGet]
        rw [safe_relpath_idem]
        exact assocGet_set_self _ _ _
      simp only [get_local, hfind, hget]
  · obtain ⟨raw, hdec, hconf, hfr, hst1, hout⟩ := store_db_stored_inv st st1 body now out h
    have hc2 : st1.meta.any (fun r => decide (r.backend = "db" ∧ r.id = body.id)) = true := by
      rw [hst1]; simp [List.any_append]
    refine ⟨?_, raw, hdec, ?_⟩
    · simp only [store_db, hdec]
      rw [if_pos hc2]
    · have hfind : st1.meta.find?
          (fun r => decide (r.backend = "db" ∧ r.id = body.id)) =
          some ⟨body.id, "db", body.id, raw.length, now⟩ := by
        rw [hst1]
        exact find?_append_of_none hconf (by simp)
      have hget : dbTableGet st1.blob_data body.id = some raw := by
        rw [hst1]
        simp only [dbTableGet]
        apply assocGet_append_right
        by_cases hrow : (assocGet st.blob_data body.id).isSome
        · rw [if_pos hrow]; exact assocGet_erase_self _ _
        · rw [if_neg hrow]; exact Option.not_isSome_iff_eq_none.mp hrow
      simp only [get_db_blob, hfind, hget]
  · obtain ⟨raw, hdec, hconf, hfr, hst1, hout⟩ := store_s3_stored_inv st st1 body now out h
    have hc2 : st1.meta.any (fun r => decide (r.backend = "s3" ∧ r.id = body.id)) = true := by
      rw [hst1]; simp [List.any_append]
    refine ⟨?_, raw, hdec, ?_⟩
    · simp only [store_s3, hdec]
      rw [if_pos hc2]
    · have hfind : st1.meta.find?
          (fun r => decide (r.backend = "s3" ∧ r.id = body.id)) =
          some ⟨body.id, "s3", pathString (safe_relpath body.id), raw.length, now⟩ := by
        rw [hst1]
        exact find?_append_of_none hconf (by simp)
      have hget : s3Get st1.s3obj (pathString (safe_relpath body.id)) = some raw := by
        rw [hst1]
        simp only [s3Get, httpGetReq]
        rw [safe_relpath_idem, assocGet_set_self]
        rfl
      simp only [get_s3_blob, hfind, hget]

/-- Witness for C4: store id `"x"` with `"aGVsbG8="` into the empty state,
store it again, observe Conflict and the unchanged original object. -/
theorem C4_duplicate_rejected_witness :
    store_local true 1
        ⟨[⟨chars "x", "local", chars "x", 5, 0⟩],
          [([chars "x"], [104, 101, 108, 108, 111])], [], []⟩
        ⟨chars "x", chars "aGVsbG8="⟩ =
      (⟨[⟨chars "x", "local", chars "x", 5, 0⟩],
          [([chars "x"], [104, 101, 108, 108, 111])], [], []⟩, .conflict) ∧
    ∃ raw, b64decode (chars "aGVsbG8=") = some raw ∧
      get_local
        ⟨[⟨chars "x", "local", chars "x", 5, 0⟩],
          [([chars "x"], [104, 101, 108, 108, 111])], [], []⟩ (chars "x") =
        .found ⟨chars "x", b64encode raw, raw.length, 0⟩ :=
  (C4_duplicate_rejected sys0
    ⟨[⟨chars "x", "local", chars "x", 5, 0⟩],
      [([chars "x"], [104, 101, 108, 108, 111])], [], []⟩
    ⟨chars "x", chars "aGVsbG8="⟩ 0 1 ⟨chars "x", chars "aGVsbG8=", 5, 0⟩).1 (by decide)

/-- Claim C5: retrieval fails with NotFound exactly when no metadata record
exists for the requested backend and id; when metadata exists but the
adapter's get reports not-found, retrieval fails with BackendError instead;
on success it returns the id, the re-encoded fetched payload, and the size
and creation timestamp taken from the metadata record. -/
theorem C5_retrieve_contract (st : Sys) (i : List Char) :
    ((get_local st i = .notFound ↔
        st.meta.find? (fun r => decide (r.backend = "local" ∧ r.id = i)) = none) ∧
      (∀ m : MetaRec,
        st.meta.find? (fun r => decide (r.backend = "local" ∧ r.id = i)) = some m →
        fsGet st.fs m.locator = none → get_local st i = .backendError) ∧
      (∀ (m : MetaRec) (raw : Bytes),
        st.meta.find? (fun r => decide (r.backend = "local" ∧ r.id = i)) = some m →
        fsGet st.fs m.locator = some raw →
        get_local st i = .found ⟨i, b64encode raw, m.size, m.created_at⟩)) ∧
    ((get_db_blob st i = .notFound ↔
        st.meta.find? (fun r => decide (r.backend = "db" ∧ r.id = i)) = none) ∧
      (∀ m : MetaRec,
        st.meta.find? (fun r => decide (r.backend = "db" ∧ r.id = i)) = some m →
        dbTableGet st.blob_data m.locator = none → get_db_blob st i = .backendError) ∧
      (∀ (m : MetaRec) (raw : Bytes),
        st.meta.find? (fun r => decide (r.backend = "db" ∧ r.id = i)) = some m →
        dbTableGet st.blob_data m.locator = some raw →
        get_db_blob st i = .found ⟨i, b64encode raw, m.size, m.created_at⟩)) ∧
    ((get_s3_blob st i = .notFound ↔
        st.meta.find? (fun r => decide (r.backend = "s3" ∧ r.id = i)) = none) ∧
      (∀ m : MetaRec,
        st.meta.find? (fun r => decide (r.backend = "s3" ∧ r.id = i)) = some m →
        s3Get st.s3obj m.locator = none → get_s3_blob st i = .backendError) ∧
      (∀ (m : MetaRec) (raw : Bytes),
        st.meta.find? (fun r => decide (r.backend = "s3" ∧ r.id = i)) = some m →
        s3Get st.s3obj m.locator = some raw →
        get_s3_blob st i = .found ⟨i, b64encode raw, m.size, m.created_at⟩)) ∧
    (GetResult.backendError ≠ GetResult.notFound) := by
  refine ⟨⟨?_, ?_, ?_⟩, ⟨?_, ?_, ?_⟩, ⟨?_, ?_, ?_⟩, by simp⟩
  · cases hf : st.meta.find? (fun r => decide (r.backend = "local" ∧ r.id = i)) with
    | none => simp only [get_local, hf]
    | some m =>
      cases hg : fsGet st.fs m.locator <;>
        · simp only [get_local, hf, hg]
          simp [hf]
  · intro m hf hg
    simp only [get_local, hf, hg]
  · intro m raw hf hg
    simp only [get_local, hf, hg]
  · cases hf : st.meta.find? (fun r => decide (r.backend = "db" ∧ r.id = i)) with
    | none => simp only [get_db_blob, hf]
    | some m =>
      cases hg : dbTableGet st.blob_data m.locator <;>
        · simp only [get_db_blob, hf, hg]
          simp [hf]
  · intro m hf hg
    simp only [get_db_blob, hf, hg]
  · intro m raw hf hg
    simp only [get_db_blob, hf, hg]
  · cases hf : st.meta.find? (fun r => decide (r.backend = "s3" ∧ r.id = i)) with
    | none => simp only [get_s3_blob, hf]
    | some m =>
      cases hg : s3Get st.s3obj m.locator <;>
        · simp only [get_s3_blob, hf, hg]
          simp [hf]
  · intro m hf hg
    simp only [get_s3_blob, hf, hg]
  · intro m raw hf hg
    simp only [get_s3_blob, hf, hg]

/-- Witness for C5: a metadata record whose stored size (99) and timestamp
(7) differ from the fetched object (2 bytes) — the response carries the
metadata values, not recomputed ones. -/
theorem C5_retrieve_contract_witness :
    get_local
      ⟨[⟨chars "x", "local", chars "x", 99, 7⟩], [([chars "x"], [104, 105])], [], []⟩
      (chars "x") = .found ⟨chars "x", b64encode [104, 105], 99, 7⟩ :=
  (C5_retrieve_contract
    ⟨[⟨chars "x", "local", chars "x", 99, 7⟩], [([chars "x"], [104, 105])], [], []⟩
    (chars "x")).1.2.2 ⟨chars "x", "local", chars "x", 99, 7⟩ [104, 105]
    (by decide) (by decide)
